import Mathlib

/-!
Verification of the ro-imap-proxy IMAP proxy against its specification.

Shallow embedding of the Go sources:
* `internal/imap/command.go`   → `ParseCommand`
* `internal/imap/filter.go`    → `Filter`
* `internal/imap/literal.go`   → `ParseLiteral`
* `internal/imap/response.go`  → `ParseListResponse`
* `internal/config/config.go`  → `AccountConfig`, `FolderAllowed`, …
* `internal/proxy/session.go`  → `parseOneArg`, `extractCommandMailbox`,
  `folderBlocked`, `processClientLine` (one iteration of
  `Session.clientToUpstream`), `sessionRun` (greeting + pre-auth loop)
* `internal/proxy/upstream.go` → `quoteIMAPString`

Bytes on the wire are modelled as `List Char` (the protocol is ASCII).
-/

namespace RoImapProxy

/-- Wire bytes, modelled as a list of (ASCII) characters. -/
abbrev Bytes := List Char

/-- Convenience: the bytes of a Lean string literal. -/
def str (s : String) : Bytes := s.data

/-! ### Small byte-level helpers shared by several Go functions -/

/-- ASCII uppercasing of one byte, as Go `strings.ToUpper` acts on ASCII. -/
def upperChar (c : Char) : Char :=
  if 'a' ≤ c ∧ c ≤ 'z' then Char.ofNat (c.toNat - 32) else c

/-- Go `strings.ToUpper` on ASCII input. -/
def upper (l : Bytes) : Bytes := l.map upperChar

/-- Go `strings.EqualFold` on ASCII input. -/
def eqFold (a b : Bytes) : Bool := upper a = upper b

/-- Is the byte part of the cutset `"\r\n"`? -/
def isCRLF (c : Char) : Bool := c = '\r' || c = '\n'

/-- Go `bytes.TrimRight(l, "\r\n")` / `strings.TrimRight(l, "\r\n")`. -/
def trimRightCRLF (l : Bytes) : Bytes :=
  ((l.reverse.dropWhile isCRLF)).reverse

/-- Go `unicode.IsSpace` restricted to ASCII. -/
def isSpaceGo (c : Char) : Bool :=
  c = ' ' || c = '\t' || c = '\n' || c = '\x0B' || c = '\x0C' || c = '\r'

/-- Go `strings.TrimSpace` on ASCII input. -/
def trimSpace (l : Bytes) : Bytes :=
  ((l.dropWhile isSpaceGo).reverse.dropWhile isSpaceGo).reverse

/-- Split at the first space: Go `bytes.IndexByte(l, ' ')`.
Returns the part before the first space and, when a space exists,
the part after it. -/
def breakSpace : Bytes → Bytes × Option Bytes
  | [] => ([], none)
  | c :: t =>
    if c = ' ' then ([], some t)
    else
      let (a, r) := breakSpace t
      (c :: a, r)

/-- Go `strings.SplitN(s, " ", 3)`. -/
def splitN3 (s : Bytes) : List Bytes :=
  match breakSpace s with
  | (a, none) => [a]
  | (a, some r) =>
    match breakSpace r with
    | (b, none) => [a, b]
    | (b, some c) => [a, b, c]

/-! ### internal/imap/command.go -/

/-- Parse errors of `ParseCommand` (`errEmptyLine`, `errMissingTag`,
`errMissingVerb`). -/
inductive CmdErr where
  | emptyLine
  | missingTag
  | missingVerb
deriving DecidableEq, Repr

/-- `imap.Command`: a parsed IMAP command line. -/
structure Command where
  Tag : Bytes
  Verb : Bytes
  SubVerb : Bytes
  Raw : Bytes
deriving DecidableEq, Repr

/-- `imap.ParseCommand`: parse an IMAP command line (Go
`internal/imap/command.go`). -/
def ParseCommand (line : Bytes) : Except CmdErr Command :=
  if line = [] then .error .emptyLine
  else
    let raw := line
    let data := trimRightCRLF line
    if data = [] then .error .emptyLine
    else
      match breakSpace data with
      | (tok, none) =>
        -- no space: the whole token is a verb only if it is DONE
        if upper tok = str "DONE" then .ok ⟨[], str "DONE", [], raw⟩
        else .error .missingVerb
      | (tag, some rest) =>
        if tag = [] then .error .missingTag
        else if rest = [] then .error .missingVerb
        else
          let (verbTok, afterVerb) := breakSpace rest
          let verb := upper verbTok
          if verb = [] then .error .missingVerb
          else
            let subVerb :=
              if verb = str "UID" then
                match afterVerb with
                | none => []
                | some av =>
                  if av = [] then [] else upper (breakSpace av).1
              else []
            .ok ⟨tag, verb, subVerb, raw⟩

/-! ### internal/imap/filter.go -/

/-- `imap.FilterResult`, with the `Action` tag and the field that is
set for it (the spec describes the decision as this sum). -/
inductive FilterResult where
  | allow
  | block (rejectMsg : Bytes)
  | rewrite (rewritten : Bytes)
deriving DecidableEq, Repr

/-- `imap.blockedVerbs`. -/
def blockedVerbs : List Bytes :=
  [str "STORE", str "COPY", str "MOVE", str "DELETE", str "EXPUNGE",
   str "APPEND", str "CREATE", str "RENAME", str "SUBSCRIBE",
   str "UNSUBSCRIBE", str "AUTHENTICATE"]

/-- `imap.blockedUIDSubVerbs`. -/
def blockedUIDSubVerbs : List Bytes :=
  [str "STORE", str "COPY", str "MOVE", str "EXPUNGE"]

/-- `imap.Filter`: decide whether to allow, block, or rewrite an IMAP
command (Go `internal/imap/filter.go`). -/
def Filter (cmd : Command) : FilterResult :=
  if cmd.Verb = str "UID" then
    if cmd.SubVerb ∈ blockedUIDSubVerbs then
      .block (cmd.Tag ++ str " NO UID subcommand not allowed in read-only mode\r\n")
    else .allow
  else if cmd.Verb ∈ blockedVerbs then
    .block (cmd.Tag ++ str " NO " ++ cmd.Verb ++ str " not allowed in read-only mode\r\n")
  else if cmd.Verb = str "SELECT" then
    -- replace the 6-byte verb slot right after "tag " by "EXAMINE"
    let verbStart := cmd.Tag.length + 1
    let verbEnd := verbStart + 6
    .rewrite (cmd.Raw.take verbStart ++ str "EXAMINE" ++ cmd.Raw.drop verbEnd)
  else .allow

/-! ### internal/imap/literal.go -/

def isDigit (c : Char) : Bool := '0' ≤ c ∧ c ≤ '9'

/-- Numeric value of a digit string (most significant first). -/
def digitsToNat (l : Bytes) : Nat :=
  l.foldl (fun acc c => acc * 10 + (c.toNat - 48)) 0

/-- Go `strconv.ParseInt(s, 10, 64)`: an optional leading `+`/`-` sign,
one or more decimal digits, value within the int64 range; `none` on any
syntax error or overflow. -/
def parseIntGo (l : Bytes) : Option Int :=
  let (neg, digits) :=
    match l with
    | '+' :: t => (false, t)
    | '-' :: t => (true, t)
    | t => (false, t)
  if digits = [] then none
  else if digits.all isDigit then
    let v : Int := if neg then -(digitsToNat digits : Int) else (digitsToNat digits : Int)
    if v < -(2 ^ 63) ∨ 2 ^ 63 - 1 < v then none else some v
  else none

/-- The content after the last `'{'` of `l`, or `none` when `l` has no
`'{'` (Go `bytes.LastIndexByte(l, '{')`). -/
def afterLastBrace (l : Bytes) : Option Bytes :=
  let suf := l.reverse.takeWhile (fun c => ¬ c = '{')
  if suf.length = l.length then none else some suf.reverse

/-- `imap.ParseLiteral`: scan a line for a trailing `{N}` / `{N+}`
literal specification (Go `internal/imap/literal.go`). Returns the
count and the non-synchronizing flag, `none` when no literal is found. -/
def ParseLiteral (line : Bytes) : Option (Int × Bool) :=
  let data := trimRightCRLF line
  if data = [] then none
  else if data.getLast? ≠ some '}' then none
  else
    let body := data.dropLast
    match afterLastBrace body with
    | none => none
    | some inner =>
      if inner = [] then none
      else
        let (ns, inner') :=
          if inner.getLast? = some '+' then (true, inner.dropLast)
          else (false, inner)
        if inner' = [] then none
        else
          match parseIntGo inner' with
          | none => none
          | some count => if count < 0 then none else some (count, ns)

/-! ### internal/config/config.go -/

/-- `config.AccountConfig`. -/
structure AccountConfig where
  LocalUser : Bytes
  LocalPassword : Bytes
  RemoteHost : Bytes
  RemotePort : Nat
  RemoteUser : Bytes
  RemotePassword : Bytes
  RemoteTLS : Bool
  RemoteStartTLS : Bool
  AllowedFolders : List Bytes
  BlockedFolders : List Bytes
  WritableFolders : List Bytes
deriving DecidableEq, Repr

/-- `config.Config` (the `Server` section is irrelevant to the session
logic). -/
structure Config where
  Accounts : List AccountConfig
deriving Repr

/-- `config.normalizeINBOX`: uppercase a leading `INBOX` token. -/
def normalizeINBOX (s : Bytes) : Bytes :=
  if 5 ≤ s.length ∧ eqFold (s.take 5) (str "INBOX") then
    if s.length = 5 ∨ s[5]? = some '/' ∨ s[5]? = some '.' then
      str "INBOX" ++ s.drop 5
    else s
  else s

/-- Go `strings.HasPrefix`. -/
def goHasPre (l p : Bytes) : Bool := l.take p.length = p

/-- `config.folderMatch`. -/
def folderMatch (name pattern : Bytes) : Bool :=
  let n := normalizeINBOX name
  let p := normalizeINBOX pattern
  n = p || goHasPre n (p ++ ['/']) || goHasPre n (p ++ ['.'])

/-- `config.matchesAny`. -/
def matchesAny (name : Bytes) (entries : List Bytes) : Bool :=
  entries.any (folderMatch name)

/-- `AccountConfig.HasFolderFilter`. -/
def HasFolderFilter (a : AccountConfig) : Bool :=
  ¬ a.AllowedFolders = [] || ¬ a.BlockedFolders = []

/-- `AccountConfig.FolderAllowed`. -/
def FolderAllowed (a : AccountConfig) (name : Bytes) : Bool :=
  if ¬ a.AllowedFolders = [] then matchesAny name a.AllowedFolders
  else if ¬ a.BlockedFolders = [] then ! matchesAny name a.BlockedFolders
  else true

/-- `AccountConfig.FolderWritable`. -/
def FolderWritable (a : AccountConfig) (name : Bytes) : Bool :=
  matchesAny name a.WritableFolders

/-- `Config.LookupUser`: first account with the given local user. -/
def LookupUser (cfg : Config) (user : Bytes) : Option AccountConfig :=
  cfg.Accounts.find? (fun a => a.LocalUser = user)

/-! ### internal/proxy/upstream.go (quoting only) -/

/-- `proxy.quoteIMAPString`: wrap in double quotes, escaping `\` and
`"` (two successive `strings.ReplaceAll` then concatenation). -/
def quoteIMAPString (s : Bytes) : Bytes :=
  let s₁ := s.flatMap (fun c => if c = '\\' then ['\\', '\\'] else [c])
  let s₂ := s₁.flatMap (fun c => if c = '"' then ['\\', '"'] else [c])
  '"' :: s₂ ++ ['"']

/-! ### internal/proxy/session.go — argument parsing -/

/-- Result of a Go function that may panic (used for `parseOneArg`,
which indexes `s[0]` without a bounds check). -/
inductive GoRes (α : Type) where
  | panicked
  | err
  | ok (v : α)
deriving DecidableEq, Repr

/-- The quoted-string scanner shared by `parseOneArg`
(`session.go:417`) and the mailbox scanner of `ParseListResponse`
(`response.go:62`): consume bytes after an opening `"`, decoding `\"`
to `"`, until an unescaped closing `"`. Returns the decoded token and
the bytes after the closing quote, `none` when the input ends before
an unescaped `"` is found. -/
def parseQuoted : Bytes → Option (Bytes × Bytes)
  | [] => none
  | [c] =>
    -- last byte: only an unescaped `"` terminates; anything else
    -- (including a lone `\`) runs off the end
    if c = '"' then some ([], []) else none
  | c :: d :: rest =>
    if c = '\\' ∧ d = '"' then
      (parseQuoted rest).map (fun p => ('"' :: p.1, p.2))
    else if c = '"' then some ([], d :: rest)
    else (parseQuoted (d :: rest)).map (fun p => (c :: p.1, p.2))

/-- `proxy.parseOneArg`: extract one token, handling quoted strings.
On the empty string, Go indexes `s[0]` out of range: `.panicked`. -/
def parseOneArg (s : Bytes) : GoRes (Bytes × Bytes) :=
  match s with
  | [] => .panicked
  | c :: rest =>
    if c = '"' then
      match parseQuoted rest with
      | none => .err
      | some (tok, r) => .ok (tok, r)
    else
      match breakSpace (c :: rest) with
      | (_, none) => .ok (c :: rest, [])
      | (a, some r) => .ok (a, r)

/-- Outcome of a Go computation that either panics or returns a value
(the only panic source in the session is `parseOneArg` on `""`). -/
inductive PanicOr (α : Type) where
  | panicked
  | ok (v : α)
deriving DecidableEq, Repr

/-- `proxy.extractCommandMailbox`: mailbox argument of SELECT / EXAMINE /
STATUS commands (`session.go:376`). Returns `""` when the raw line has
fewer than three space-separated fields or the argument is malformed. -/
def extractCommandMailbox (cmd : Command) : PanicOr Bytes :=
  let raw := trimRightCRLF cmd.Raw
  match splitN3 raw with
  | [_, _, args] =>
    match parseOneArg args with
    | .panicked => .panicked
    | .err => .ok []
    | .ok (mailbox, _) => .ok mailbox
  | _ => .ok []

/-- `proxy.Session.folderBlocked` (`session.go:358`). -/
def folderBlocked (acct : AccountConfig) (cmd : Command) : PanicOr Bool :=
  if ¬ HasFolderFilter acct then .ok false
  else if ¬ (cmd.Verb = str "SELECT" ∨ cmd.Verb = str "EXAMINE" ∨ cmd.Verb = str "STATUS") then
    .ok false
  else
    match extractCommandMailbox cmd with
    | .panicked => .panicked
    | .ok mailbox =>
      if mailbox = [] then .ok false
      else .ok (! FolderAllowed acct mailbox)

/-! ### internal/proxy/session.go — client → upstream forwarding

The client input is modelled as the remaining byte stream (a `Bytes`);
`bufio.Reader.ReadString('\n')` reads through the first LF and fails at
EOF without a delimiter (the session then returns, discarding the
partial read). -/

/-- `bufio.Reader.ReadString('\n')` on a byte stream: the line including
its LF and the remaining bytes, or `none` at EOF before any LF. -/
def readLine : Bytes → Option (Bytes × Bytes)
  | [] => none
  | c :: t =>
    if c = '\n' then some ([c], t)
    else
      match readLine t with
      | none => none
      | some (l, r) => some (c :: l, r)

/-- Result of `forwardWithLiterals`: bytes written to upstream, the
remaining client stream, and whether the session loop continues
(`false` on an I/O error, which makes `clientToUpstream` return). -/
structure ForwardOut where
  toUpstream : Bytes
  rest : Bytes
  ok : Bool
deriving DecidableEq, Repr

/-- `proxy.Session.forwardWithLiterals` (`session.go:330`), fuelled:
each iteration forwards the line, and while the line declares a
literal, copies `count` client bytes to upstream and reads the next
line.  Every iteration consumes at least one client byte (a read line
contains its LF), so fuel `rest.length + 1` — as supplied by
`forwardWithLiterals` — never runs out. -/
def forwardWithLiteralsFuel : Nat → Bytes → Bytes → ForwardOut
  | 0, _, rest => ⟨[], rest, false⟩
  | fuel + 1, line, rest =>
    match ParseLiteral line with
    | none => ⟨line, rest, true⟩
    | some (n, _) =>
      if rest.length < n.toNat then
        -- io.CopyN hits EOF before n bytes: error, session returns
        ⟨line ++ rest, [], false⟩
      else
        match readLine (rest.drop n.toNat) with
        | none => ⟨line ++ rest.take n.toNat, [], false⟩
        | some (l', rest₂) =>
          let out := forwardWithLiteralsFuel fuel l' rest₂
          ⟨line ++ rest.take n.toNat ++ out.toUpstream, out.rest, out.ok⟩

/-- `proxy.Session.forwardWithLiterals` at its natural fuel. -/
def forwardWithLiterals (line rest : Bytes) : ForwardOut :=
  forwardWithLiteralsFuel (rest.length + 1) line rest

/-- The loop of `proxy.Session.handleIdle` (`session.go:300`), fuelled:
forward client lines to upstream until one equals `DONE`
(case-insensitively, after stripping CRLF).  Returns the forwarded
bytes, the remaining client stream, and the continue flag. -/
def idleLoopFuel : Nat → Bytes → Bytes × Bytes × Bool
  | 0, rest => ([], rest, false)
  | fuel + 1, rest =>
    match readLine rest with
    | none => ([], [], false)
    | some (l, r) =>
      if eqFold (trimRightCRLF l) (str "DONE") then (l, r, true)
      else
        let (u, r', k) := idleLoopFuel fuel r
        (l ++ u, r', k)

/-- The `handleIdle` loop at its natural fuel. -/
def idleLoop (rest : Bytes) : Bytes × Bytes × Bool :=
  idleLoopFuel (rest.length + 1) rest

/-- Effect of one iteration of `clientToUpstream` on the two output
streams and the client input. -/
structure StepOut where
  toClient : Bytes
  toUpstream : Bytes
  rest : Bytes
  cont : Bool
deriving DecidableEq, Repr

/-- One iteration of `proxy.Session.clientToUpstream`
(`session.go:231`), given the line just read and the remaining client
stream: parse, handle IDLE / LOGOUT, filter, apply the folder gate,
then reject locally or forward (with literals).  `.panicked` when
`folderBlocked` panics in `parseOneArg`. -/
def processClientLine (acct : AccountConfig) (line : Bytes) (rest : Bytes) :
    PanicOr StepOut :=
  match ParseCommand line with
  | .error _ => .ok ⟨[], line, rest, true⟩
  | .ok cmd =>
    if cmd.Verb = str "IDLE" then
      let (u, r, k) := idleLoop rest
      .ok ⟨[], line ++ u, r, k⟩
    else if cmd.Verb = str "LOGOUT" then
      .ok ⟨str "* BYE ro-imap-proxy logging out\r\n" ++
           cmd.Tag ++ str " OK LOGOUT completed\r\n", [], rest, false⟩
    else
      match Filter cmd with
      | .allow =>
        match folderBlocked acct cmd with
        | .panicked => .panicked
        | .ok true =>
          .ok ⟨cmd.Tag ++ str " NO folder not available\r\n", [], rest, true⟩
        | .ok false =>
          let f := forwardWithLiterals line rest
          .ok ⟨[], f.toUpstream, f.rest, f.ok⟩
      | .block msg =>
        let consumed :=
          match ParseLiteral line with
          | some (n, true) => n.toNat
          | _ => 0
        .ok ⟨msg, [], rest.drop consumed, true⟩
      | .rewrite newRaw =>
        match folderBlocked acct cmd with
        | .panicked => .panicked
        | .ok true =>
          .ok ⟨cmd.Tag ++ str " NO folder not available\r\n", [], rest, true⟩
        | .ok false =>
          let f := forwardWithLiterals newRaw rest
          .ok ⟨[], f.toUpstream, f.rest, f.ok⟩

/-! ### internal/proxy/session.go — greeting and pre-auth loop -/

/-- The greeting sent by `Session.Run` (`session.go:59`). -/
def greetingLine : Bytes := str "* OK ro-imap-proxy ready\r\n"

/-- Observable session events: a write to the client, a client line
read (attempted), and the transition to the authenticated phase. -/
inductive Event where
  | writeClient (data : Bytes)
  | readClient
  | enterPostAuth
deriving DecidableEq, Repr

/-- `proxy.extractTag` (`session.go:446`). -/
def extractTag (line : Bytes) : Bytes :=
  let l := trimSpace line
  match l.findIdx? (fun c => c = ' ') with
  | some idx => if 0 < idx then l.take idx else (if ¬ l = [] then l else str "*")
  | none => if ¬ l = [] then l else str "*"

/-- `proxy.parseLoginArgs` (`session.go:391`).  The `parseOneArg`
panic branch is unreachable here: both calls are guarded by non-empty
checks. -/
def parseLoginArgs (args : Bytes) : GoRes (Bytes × Bytes) :=
  let args := trimSpace args
  if args = [] then .err
  else
    match parseOneArg args with
    | .panicked => .panicked
    | .err => .err
    | .ok (user, rest) =>
      let rest := trimSpace rest
      if rest = [] then .err
      else
        match parseOneArg rest with
        | .panicked => .panicked
        | .err => .err
        | .ok (pass, _) => .ok (user, pass)

/-- `proxy.Session.handleLogin` (`session.go:107`).  The upstream
dial-and-login exchange is abstracted by the injected capability
`login` (the code's `dialUpstream` seam): `true` means the dial and
the upstream LOGIN both succeeded.  Returns the bytes written to the
client and the bound account on success. -/
def handleLogin (cfg : Config) (login : AccountConfig → Bool) (cmd : Command) :
    Bytes × Option AccountConfig :=
  let raw := trimRightCRLF cmd.Raw
  match splitN3 raw with
  | [_, _, args] =>
    match parseLoginArgs args with
    | .ok (user, pass) =>
      match LookupUser cfg user with
      | none => (cmd.Tag ++ str " NO LOGIN failed\r\n", none)
      | some acct =>
        if ¬ acct.LocalPassword = pass then
          (cmd.Tag ++ str " NO LOGIN failed\r\n", none)
        else if login acct then
          (cmd.Tag ++ str " OK LOGIN completed\r\n", some acct)
        else (cmd.Tag ++ str " NO LOGIN failed\r\n", none)
    | _ => (cmd.Tag ++ str " NO LOGIN failed\r\n", none)
  | _ => (cmd.Tag ++ str " NO LOGIN failed\r\n", none)

/-- The pre-auth loop of `Session.Run` (`session.go:66`), as an event
trace over the client's input lines.  The loop ends at EOF (a final
failed read), on LOGOUT, or on a successful LOGIN (entering the
authenticated phase). -/
def preAuthLoop (cfg : Config) (login : AccountConfig → Bool) :
    List Bytes → List Event
  | [] => [.readClient]
  | l :: ls =>
    .readClient ::
      match ParseCommand l with
      | .error _ =>
        .writeClient (extractTag l ++ str " BAD command not recognized\r\n") ::
          preAuthLoop cfg login ls
      | .ok cmd =>
        if cmd.Verb = str "CAPABILITY" then
          .writeClient (str "* CAPABILITY IMAP4rev1 IDLE LITERAL+\r\n") ::
            .writeClient (cmd.Tag ++ str " OK CAPABILITY completed\r\n") ::
              preAuthLoop cfg login ls
        else if cmd.Verb = str "NOOP" then
          .writeClient (cmd.Tag ++ str " OK NOOP completed\r\n") ::
            preAuthLoop cfg login ls
        else if cmd.Verb = str "LOGOUT" then
          [.writeClient (str "* BYE ro-imap-proxy logging out\r\n"),
           .writeClient (cmd.Tag ++ str " OK LOGOUT completed\r\n")]
        else if cmd.Verb = str "LOGIN" then
          let (w, auth) := handleLogin cfg login cmd
          .writeClient w ::
            match auth with
            | some _ => [.enterPostAuth]
            | none => preAuthLoop cfg login ls
        else
          .writeClient (cmd.Tag ++ str " BAD command not recognized\r\n") ::
            preAuthLoop cfg login ls

/-- `proxy.Session.Run` (`session.go:55`) up to the authenticated
phase: send the greeting, then run the pre-auth loop. -/
def sessionRun (cfg : Config) (login : AccountConfig → Bool)
    (clientLines : List Bytes) : List Event :=
  .writeClient greetingLine :: preAuthLoop cfg login clientLines

/-- Is the event a client read? -/
def Event.isRead : Event → Bool
  | .readClient => true
  | _ => false

/-- The events a session produces before its first attempt to read
from the client. -/
def eventsBeforeFirstRead (t : List Event) : List Event :=
  t.takeWhile (fun e => ¬ e.isRead)

/-! ### internal/imap/response.go -/

/-- The mailbox field of a LIST/LSUB response: a quoted string (using
the same scanner as `parseOneArg`'s quoted branch) or an atom running
to end of line (`response.go:57`). -/
def parseMailboxField (rest : Bytes) : Option Bytes :=
  let rest := rest.dropWhile (fun c => c = ' ')
  match rest with
  | [] => none
  | '"' :: tail => (parseQuoted tail).map Prod.fst
  | _ => some rest

/-- `imap.ParseListResponse` (`internal/imap/response.go`): extract
the mailbox name from a `* LIST` / `* LSUB` untagged response. -/
def ParseListResponse (line : Bytes) : Option Bytes :=
  let data := trimRightCRLF line
  match data with
  | '*' :: ' ' :: v₁ :: v₂ :: v₃ :: v₄ :: ' ' :: rest =>
    -- `len(data) < 7`, `data[0] != '*'`, `data[1] != ' '`, and the
    -- 4-byte verb followed by a space are all captured by the pattern
    let verb := upper [v₁, v₂, v₃, v₄]
    if ¬ (verb = str "LIST" ∨ verb = str "LSUB") then none
    else
      let rest := rest.dropWhile (fun c => c = ' ')
      if ¬ rest.head? = some '(' then none
      else
        match rest.findIdx? (fun c => c = ')') with
        | none => none
        | some closeIdx =>
          let rest := rest.drop (closeIdx + 1)
          let rest := rest.dropWhile (fun c => c = ' ')
          match rest with
          | [] => none
          | '"' :: tail =>
            match tail.findIdx? (fun c => c = '"') with
            | none => none
            | some e => parseMailboxField (tail.drop (e + 1))
          | _ =>
            if 3 ≤ rest.length ∧ eqFold (rest.take 3) (str "NIL") then
              parseMailboxField (rest.drop 3)
            else none
  | _ => none

/-! ## Concrete fixtures (from the repository's own test configuration) -/

/-- The `testConfig` account of `session_test.go`, with no folder lists. -/
def baseAccount : AccountConfig :=
  { LocalUser := str "reader1", LocalPassword := str "localpass1",
    RemoteHost := str "mail.example.com", RemotePort := 993,
    RemoteUser := str "realuser@example.com", RemotePassword := str "realpass",
    RemoteTLS := true, RemoteStartTLS := false,
    AllowedFolders := [], BlockedFolders := [], WritableFolders := [] }

/-- The account of the writable-folder integration tests
(`writable_folders = ["Drafts"]`). -/
def writableAccount : AccountConfig :=
  { baseAccount with WritableFolders := [str "Drafts"] }

/-- An account with an allow-list (`allowed_folders = ["INBOX"]`). -/
def allowInboxAccount : AccountConfig :=
  { baseAccount with AllowedFolders := [str "INBOX"] }

/-- The literal detector as the claim words it (for comparison with
`ParseLiteral`): after stripping trailing CR/LF the last byte must be
`}` with a `{` earlier, and the inner text — after optionally removing
a single trailing `+` — must be non-empty and consist of decimal
digits only (any non-digit content yields no literal), with its
unbounded numeric value as the count. -/
def claimedLiteral (line : Bytes) : Option (Nat × Bool) :=
  let data := trimRightCRLF line
  if data = [] then none
  else if data.getLast? ≠ some '}' then none
  else
    match afterLastBrace data.dropLast with
    | none => none
    | some inner =>
      if inner = [] then none
      else
        let (ns, content) :=
          if inner.getLast? = some '+' then (true, inner.dropLast)
          else (false, inner)
        if content = [] then none
        else if content.all isDigit then some (digitsToNat content, ns)
        else none

/-! ## Claims -/

/-- **C1.** The writable-folder override is absent from the session:
even with `Drafts` in the account's writable-folder list,
`A002 SELECT Drafts` is still rewritten to `EXAMINE` and forwarded,
and `STORE`, `UID STORE` and `APPEND Drafts` are all still blocked
locally with nothing forwarded to upstream.  `clientToUpstream`
(`session.go:231`) never consults `FolderWritable` and the `Session`
struct tracks no selected folder, contradicting the repository's own
integration tests and README. -/
theorem writable_folder_override_missing :
    FolderWritable writableAccount (str "Drafts") = true ∧
    processClientLine writableAccount (str "A002 SELECT Drafts\r\n") [] =
      .ok ⟨[], str "A002 EXAMINE Drafts\r\n", [], true⟩ ∧
    processClientLine writableAccount (str "A003 STORE 1 +FLAGS (\\Seen)\r\n") [] =
      .ok ⟨str "A003 NO STORE not allowed in read-only mode\r\n", [], [], true⟩ ∧
    processClientLine writableAccount (str "A004 UID STORE 1 +FLAGS (\\Seen)\r\n") [] =
      .ok ⟨str "A004 NO UID subcommand not allowed in read-only mode\r\n", [], [], true⟩ ∧
    processClientLine writableAccount (str "A005 APPEND Drafts {7+}\r\n") (str "HELLO!!") =
      .ok ⟨str "A005 NO APPEND not allowed in read-only mode\r\n", [], [], true⟩ :=
  ⟨rfl, rfl, rfl, rfl, rfl⟩

/-- **C10.** `parseOneArg` is not total: on the empty string it reads
`s[0]` out of bounds (a Go runtime panic).  The post-auth line
`A001 STATUS \r\n` (trailing space, empty argument field) parses fine,
and with a folder filter configured the session reaches
`extractCommandMailbox` → `parseOneArg ""` and panics. -/
theorem parse_one_arg_empty_panics :
    parseOneArg ([] : Bytes) = .panicked ∧
    ParseCommand (str "A001 STATUS \r\n") =
      .ok ⟨str "A001", str "STATUS", [], str "A001 STATUS \r\n"⟩ ∧
    processClientLine allowInboxAccount (str "A001 STATUS \r\n") [] = .panicked :=
  ⟨rfl, rfl, rfl⟩

/-- **C8 (counterexample).** The greeting the session actually sends is
`* OK ro-imap-proxy ready\r\n`, not `* OK imap-proxy ready\r\n` as the
claim states. -/
theorem greeting_bytes_differ_from_claim :
    eventsBeforeFirstRead (sessionRun ⟨[]⟩ (fun _ => true) []) =
      [.writeClient (str "* OK ro-imap-proxy ready\r\n")] ∧
    ¬ str "* OK ro-imap-proxy ready\r\n" = str "* OK imap-proxy ready\r\n" :=
  ⟨rfl, by decide⟩

/-- **C8 (amended).** For every configuration, upstream-login capability
and client input, the session emits exactly one line before its first
attempt to read from the client, and that line is exactly
`* OK ro-imap-proxy ready\r\n`. -/
theorem greeting_emitted_once_before_first_read (cfg : Config)
    (login : AccountConfig → Bool) (lines : List Bytes) :
    eventsBeforeFirstRead (sessionRun cfg login lines) =
      [.writeClient (str "* OK ro-imap-proxy ready\r\n")] := by
  cases lines <;> rfl

/-- **C2.** The policy filter's complete decision table: blocked UID
sub-verbs produce the exact UID reject line, blocked verbs produce the
exact per-verb reject line, `SELECT` is rewritten, and everything else
(including `UID` with any other sub-verb) is allowed. -/
theorem filter_policy_table (cmd : Command) :
    if cmd.Verb = str "UID" then
      if cmd.SubVerb = str "STORE" ∨ cmd.SubVerb = str "COPY" ∨
          cmd.SubVerb = str "MOVE" ∨ cmd.SubVerb = str "EXPUNGE" then
        Filter cmd =
          .block (cmd.Tag ++ str " NO UID subcommand not allowed in read-only mode\r\n")
      else Filter cmd = .allow
    else if cmd.Verb = str "STORE" ∨ cmd.Verb = str "COPY" ∨ cmd.Verb = str "MOVE" ∨
        cmd.Verb = str "DELETE" ∨ cmd.Verb = str "EXPUNGE" ∨ cmd.Verb = str "APPEND" ∨
        cmd.Verb = str "CREATE" ∨ cmd.Verb = str "RENAME" ∨ cmd.Verb = str "SUBSCRIBE" ∨
        cmd.Verb = str "UNSUBSCRIBE" ∨ cmd.Verb = str "AUTHENTICATE" then
      Filter cmd =
        .block (cmd.Tag ++ str " NO " ++ cmd.Verb ++ str " not allowed in read-only mode\r\n")
    else if cmd.Verb = str "SELECT" then
      ∃ r, Filter cmd = .rewrite r
    else Filter cmd = .allow := by
  have hsub : (cmd.SubVerb ∈ blockedUIDSubVerbs) ↔
      (cmd.SubVerb = str "STORE" ∨ cmd.SubVerb = str "COPY" ∨
       cmd.SubVerb = str "MOVE" ∨ cmd.SubVerb = str "EXPUNGE") := by
    simp [blockedUIDSubVerbs]
  have hverb : (cmd.Verb ∈ blockedVerbs) ↔
      (cmd.Verb = str "STORE" ∨ cmd.Verb = str "COPY" ∨ cmd.Verb = str "MOVE" ∨
       cmd.Verb = str "DELETE" ∨ cmd.Verb = str "EXPUNGE" ∨ cmd.Verb = str "APPEND" ∨
       cmd.Verb = str "CREATE" ∨ cmd.Verb = str "RENAME" ∨ cmd.Verb = str "SUBSCRIBE" ∨
       cmd.Verb = str "UNSUBSCRIBE" ∨ cmd.Verb = str "AUTHENTICATE") := by
    simp [blockedVerbs]
  by_cases h1 : cmd.Verb = str "UID"
  · rw [if_pos h1]
    by_cases h2 : cmd.SubVerb ∈ blockedUIDSubVerbs
    · rw [if_pos (hsub.mp h2)]
      simp [Filter, h1, h2]
    · rw [if_neg (fun hd => h2 (hsub.mpr hd))]
      simp [Filter, h1, h2]
  · rw [if_neg h1]
    by_cases h3 : cmd.Verb ∈ blockedVerbs
    · rw [if_pos (hverb.mp h3)]
      simp [Filter, h1, h3]
    · rw [if_neg (fun hd => h3 (hverb.mpr hd))]
      by_cases h4 : cmd.Verb = str "SELECT"
      · rw [if_pos h4]
        exact ⟨_, by
          simp only [Filter, h4]
          rw [if_neg (by decide), if_neg (by decide)]
          exact if_pos trivial⟩
      · rw [if_neg h4]
        simp [Filter, h1, h3, h4]

/-- A blocked command's verb is `UID` or one of the blocked verbs. -/
lemma filter_block_verb (cmd : Command) (msg : Bytes)
    (h : Filter cmd = .block msg) :
    cmd.Verb = str "UID" ∨ cmd.Verb ∈ blockedVerbs := by
  unfold Filter at h
  split_ifs at h <;> simp_all

/-- A blocked command's verb is neither `IDLE` nor `LOGOUT`. -/
lemma filter_block_not_idle_logout (cmd : Command) (msg : Bytes)
    (h : Filter cmd = .block msg) :
    ¬ cmd.Verb = str "IDLE" ∧ ¬ cmd.Verb = str "LOGOUT" := by
  rcases filter_block_verb cmd msg h with hv | hv
  · rw [hv]; exact ⟨by decide, by decide⟩
  · simp only [blockedVerbs, List.mem_cons, List.not_mem_nil, or_false] at hv
    rcases hv with h | h | h | h | h | h | h | h | h | h | h <;>
      (rw [h]; exact ⟨by decide, by decide⟩)

/-- **C4.** For every client line in the authenticated state that the
policy filter classifies Block: the reject line (and nothing else) is
written to the client, zero bytes are written to upstream, and the
client stream is advanced by exactly the declared non-synchronizing
literal count (and not at all for a synchronizing literal or no
literal); the session loop continues. -/
theorem blocked_command_rejected_locally (acct : AccountConfig)
    (line rest : Bytes) (cmd : Command) (msg : Bytes)
    (hp : ParseCommand line = .ok cmd) (hb : Filter cmd = .block msg) :
    processClientLine acct line rest =
      .ok ⟨msg, [],
        rest.drop (match ParseLiteral line with
                   | some (n, true) => n.toNat
                   | _ => 0), true⟩ := by
  obtain ⟨hIdle, hLogout⟩ := filter_block_not_idle_logout cmd msg hb
  simp only [processClientLine, hp, if_neg hIdle, if_neg hLogout, hb]

/-- **C4 (witness).** The blocked `APPEND` with a `{7+}` literal from
the spec's end-to-end scenario 4: the reject line is sent, upstream
gets nothing, and exactly the 7 literal bytes are consumed. -/
theorem blocked_command_rejected_locally_witness :
    processClientLine baseAccount (str "A005 APPEND INBOX {7+}\r\n")
        (str "HELLO!!A006 NOOP\r\n") =
      .ok ⟨str "A005 NO APPEND not allowed in read-only mode\r\n", [],
        str "A006 NOOP\r\n", true⟩ :=
  blocked_command_rejected_locally baseAccount (str "A005 APPEND INBOX {7+}\r\n")
    (str "HELLO!!A006 NOOP\r\n")
    ⟨str "A005", str "APPEND", [], str "A005 APPEND INBOX {7+}\r\n"⟩
    (str "A005 NO APPEND not allowed in read-only mode\r\n") rfl rfl

/-- A command whose verb is `SELECT` is rewritten by the filter to the
positional `EXAMINE` replacement. -/
lemma filter_select_eq (cmd : Command) (h : cmd.Verb = str "SELECT") :
    Filter cmd =
      .rewrite (cmd.Raw.take (cmd.Tag.length + 1) ++ str "EXAMINE" ++
        cmd.Raw.drop (cmd.Tag.length + 1 + 6)) := by
  simp only [Filter, h]
  rw [if_neg (by decide), if_neg (by decide)]
  exact if_pos trivial

/-- A command whose verb is neither `UID`, nor blocked, nor `SELECT`
is allowed. -/
lemma filter_allow_of (cmd : Command) (hu : ¬ cmd.Verb = str "UID")
    (hb : cmd.Verb ∉ blockedVerbs) (hs : ¬ cmd.Verb = str "SELECT") :
    Filter cmd = .allow := by
  simp [Filter, hu, hb, hs]

/-- **C7 (counterexample).** An empty quoted mailbox (`A001 SELECT ""`)
is not allowed by the account's allow-list, yet the session forwards
the command (rewritten to `EXAMINE`) instead of rejecting it: the code
treats an empty extracted mailbox as "not blocked". -/
theorem folder_gate_empty_mailbox_forwarded :
    ParseCommand (str "A001 SELECT \"\"\r\n") =
      .ok ⟨str "A001", str "SELECT", [], str "A001 SELECT \"\"\r\n"⟩ ∧
    extractCommandMailbox
      ⟨str "A001", str "SELECT", [], str "A001 SELECT \"\"\r\n"⟩ = .ok [] ∧
    FolderAllowed allowInboxAccount [] = false ∧
    processClientLine allowInboxAccount (str "A001 SELECT \"\"\r\n") [] =
      .ok ⟨[], str "A001 EXAMINE \"\"\r\n", [], true⟩ :=
  ⟨rfl, rfl, rfl, rfl⟩

/-- **C7 (amended).** For every parsed `SELECT`, `EXAMINE` or `STATUS`
command whose extracted mailbox argument is non-empty and not allowed
by the account's folder filter, the session writes exactly
`<tag> NO folder not available\r\n` to the client and forwards nothing
to upstream. -/
theorem folder_gate_rejects_locally (acct : AccountConfig)
    (line rest : Bytes) (cmd : Command) (m : Bytes)
    (hp : ParseCommand line = .ok cmd)
    (hv : cmd.Verb = str "SELECT" ∨ cmd.Verb = str "EXAMINE" ∨
      cmd.Verb = str "STATUS")
    (hm : extractCommandMailbox cmd = .ok m) (hne : ¬ m = [])
    (hna : FolderAllowed acct m = false) :
    processClientLine acct line rest =
      .ok ⟨cmd.Tag ++ str " NO folder not available\r\n", [], rest, true⟩ := by
  have hfilter : HasFolderFilter acct = true := by
    unfold HasFolderFilter
    by_cases hA : acct.AllowedFolders = []
    · by_cases hB : acct.BlockedFolders = []
      · exact absurd hna (by simp [FolderAllowed, hA, hB])
      · simp [hB]
    · simp [hA]
  have hblocked : folderBlocked acct cmd = .ok true := by
    unfold folderBlocked
    rw [if_neg (by simp [hfilter]), if_neg (not_not_intro hv), hm]
    simp [hne, hna]
  have hIdle : ¬ cmd.Verb = str "IDLE" := by
    rcases hv with h | h | h <;> (rw [h]; decide)
  have hLogout : ¬ cmd.Verb = str "LOGOUT" := by
    rcases hv with h | h | h <;> (rw [h]; decide)
  rcases hv with h | h | h
  · simp only [processClientLine, hp, if_neg hIdle, if_neg hLogout,
      filter_select_eq cmd h, hblocked]
  all_goals
    have hallow : Filter cmd = .allow :=
      filter_allow_of cmd (by rw [h]; decide) (by rw [h]; decide)
        (by rw [h]; decide)
    simp only [processClientLine, hp, if_neg hIdle, if_neg hLogout, hallow,
      hblocked]

/-- **C7 (witness).** `A002 SELECT Trash` against a
`blocked_folders = ["Trash"]` account is rejected locally with
`A002 NO folder not available\r\n` and nothing goes upstream. -/
theorem folder_gate_rejects_locally_witness :
    processClientLine { baseAccount with BlockedFolders := [str "Trash"] }
        (str "A002 SELECT Trash\r\n") [] =
      .ok ⟨str "A002 NO folder not available\r\n", [], [], true⟩ :=
  folder_gate_rejects_locally
    { baseAccount with BlockedFolders := [str "Trash"] }
    (str "A002 SELECT Trash\r\n") []
    ⟨str "A002", str "SELECT", [], str "A002 SELECT Trash\r\n"⟩
    (str "Trash") rfl (Or.inl rfl) rfl (by decide) rfl

/-- `breakSpace` decomposition when a space was found. -/
lemma breakSpace_some (l a r : Bytes) (h : breakSpace l = (a, some r)) :
    l = a ++ ' ' :: r := by
  induction l generalizing a r with
  | nil => simp [breakSpace] at h
  | cons c t ih =>
    by_cases hc : c = ' '
    · simp [breakSpace, hc] at h
      obtain ⟨ha, ht⟩ := h
      subst ha
      subst ht
      subst hc
      rfl
    · simp [breakSpace, hc] at h
      obtain ⟨ha, hr⟩ := h
      set b := (breakSpace t).1 with hb
      have ht : t = b ++ ' ' :: r := ih b r (by rw [hb, ← hr])
      rw [← ha, ht]
      rfl

/-- `breakSpace` finds no space exactly on the full token. -/
lemma breakSpace_none (l a : Bytes) (h : breakSpace l = (a, none)) :
    a = l := by
  induction l generalizing a with
  | nil =>
    simp [breakSpace] at h
    exact h
  | cons c t ih =>
    by_cases hc : c = ' '
    · simp [breakSpace, hc] at h
    · simp [breakSpace, hc] at h
      obtain ⟨ha, hr⟩ := h
      set b := (breakSpace t).1 with hb
      rw [← ha, ih b (by rw [hb, ← hr])]

/-- CRLF-trimming only removes a (CR/LF) suffix. -/
lemma trimRightCRLF_decomp (l : Bytes) : ∃ s, l = trimRightCRLF l ++ s := by
  refine ⟨(l.reverse.takeWhile isCRLF).reverse, ?_⟩
  unfold trimRightCRLF
  conv_lhs => rw [← l.reverse_reverse, ← List.takeWhile_append_dropWhile
    (p := isCRLF) (l := l.reverse)]
  rw [List.reverse_append]

/-- ASCII uppercasing preserves length. -/
lemma upper_length (l : Bytes) : (upper l).length = l.length :=
  List.length_map l upperChar

/-- **C3.** For every parsed command with verb `SELECT`, the filter's
rewritten line is exactly the first `len(tag)+1` raw bytes, then the 7
bytes `EXAMINE`, then all raw bytes from position `len(tag)+1+6` on;
moreover those first `len(tag)+1` bytes are exactly the tag and one
space, and the 6 replaced bytes are a casing of `SELECT`, so only the
verb slot changes. -/
theorem select_rewrite_preserves_frame (line : Bytes) (cmd : Command)
    (hp : ParseCommand line = .ok cmd) (hv : cmd.Verb = str "SELECT") :
    Filter cmd =
      .rewrite (cmd.Raw.take (cmd.Tag.length + 1) ++ str "EXAMINE" ++
        cmd.Raw.drop (cmd.Tag.length + 1 + 6)) ∧
    cmd.Raw.take (cmd.Tag.length + 1) = cmd.Tag ++ [' '] ∧
    ∃ verbTok tail,
      cmd.Raw = (cmd.Tag ++ [' ']) ++ verbTok ++ tail ∧
      verbTok.length = 6 ∧ upper verbTok = str "SELECT" ∧
      cmd.Raw.drop (cmd.Tag.length + 1 + 6) = tail := by
  refine ⟨filter_select_eq cmd hv, ?_⟩
  -- invert the parser
  unfold ParseCommand at hp
  dsimp only at hp
  obtain ⟨crlf, hcrlf⟩ := trimRightCRLF_decomp line
  by_cases h0 : line = []
  · rw [if_pos h0] at hp
    exact absurd hp (by simp)
  rw [if_neg h0] at hp
  by_cases h1 : trimRightCRLF line = []
  · rw [if_pos h1] at hp
    exact absurd hp (by simp)
  rw [if_neg h1] at hp
  rcases hbd : breakSpace (trimRightCRLF line) with ⟨tok, opt⟩
  rw [hbd] at hp
  cases opt with
  | none =>
    -- single-token branch: the verb could only be "DONE", not "SELECT"
    dsimp only at hp
    by_cases hd : upper tok = str "DONE"
    · rw [if_pos hd] at hp
      have hverb : cmd.Verb = str "DONE" :=
        (congrArg Command.Verb (Except.ok.inj hp)).symm ▸ rfl
      rw [hv] at hverb
      exact absurd hverb (by decide)
    · rw [if_neg hd] at hp
      exact absurd hp (by simp)
  | some rest =>
    dsimp only at hp
    by_cases h2 : tok = []
    · rw [if_pos h2] at hp
      exact absurd hp (by simp)
    rw [if_neg h2] at hp
    by_cases h3 : rest = []
    · rw [if_pos h3] at hp
      exact absurd hp (by simp)
    rw [if_neg h3] at hp
    rcases hbv : breakSpace rest with ⟨verbTok, afterVerb⟩
    rw [hbv] at hp
    dsimp only at hp
    by_cases h4 : upper verbTok = []
    · rw [if_pos h4] at hp
      exact absurd hp (by simp)
    rw [if_neg h4] at hp
    have hcmd := Except.ok.inj hp
    obtain rfl := hcmd.symm
    simp only at hv ⊢
    -- structure of the trimmed line
    have hdata : trimRightCRLF line = tok ++ ' ' :: rest :=
      breakSpace_some _ _ _ hbd
    have hrest : ∃ t, rest = verbTok ++ t := by
      cases afterVerb with
      | none =>
        exact ⟨[], by rw [← breakSpace_none rest verbTok hbv,
          List.append_nil]⟩
      | some av => exact ⟨' ' :: av, breakSpace_some _ _ _ hbv⟩
    obtain ⟨t, ht⟩ := hrest
    have hlen : verbTok.length = 6 := by
      have hl := congrArg List.length hv
      rw [upper_length] at hl
      simpa using hl
    have hline : line = (tok ++ [' ']) ++ verbTok ++ (t ++ crlf) := by
      conv_lhs => rw [hcrlf, hdata, ht]
      simp
    refine ⟨?_, verbTok, t ++ crlf, hline, hlen, hv, ?_⟩
    · conv_lhs => rw [hline,
        show (tok ++ [' ']) ++ verbTok ++ (t ++ crlf) =
          (tok ++ [' ']) ++ (verbTok ++ (t ++ crlf)) by simp]
      exact List.take_left' (by simp)
    · conv_lhs => rw [hline,
        show (tok ++ [' ']) ++ verbTok ++ (t ++ crlf) =
          ((tok ++ [' ']) ++ verbTok) ++ (t ++ crlf) by simp]
      exact List.drop_left' (by simp [hlen])

/-- **C3 (witness).** The frame-preservation theorem applied to the
lowercase `D100 select INBOX` line of the integration tests. -/
theorem select_rewrite_preserves_frame_witness :
    Filter ⟨str "D100", str "SELECT", [], str "D100 select INBOX\r\n"⟩ =
      .rewrite ((str "D100 select INBOX\r\n").take 5 ++ str "EXAMINE" ++
        (str "D100 select INBOX\r\n").drop 11) ∧
    (str "D100 select INBOX\r\n").take 5 = str "D100" ++ [' '] ∧
    ∃ verbTok tail,
      str "D100 select INBOX\r\n" = (str "D100" ++ [' ']) ++ verbTok ++ tail ∧
      verbTok.length = 6 ∧ upper verbTok = str "SELECT" ∧
      (str "D100 select INBOX\r\n").drop 11 = tail :=
  select_rewrite_preserves_frame (str "D100 select INBOX\r\n")
    ⟨str "D100", str "SELECT", [], str "D100 select INBOX\r\n"⟩ rfl rfl

/-- **C5 (counterexample).** The round trip fails on a lone backslash:
quoting `\` yields `"\\"`, but `parseOneArg` treats the second `\`
followed by the closing `"` as an escaped quote, runs off the end, and
reports an unterminated quoted string — it does not decode `\\`. -/
theorem quote_roundtrip_fails_on_backslash :
    quoteIMAPString (str "\\") = str "\"\\\\\"" ∧
    parseOneArg (quoteIMAPString (str "\\")) = .err :=
  ⟨rfl, rfl⟩

/-- Backslash-escaping is the identity on backslash-free inputs. -/
lemma escape_backslash_id (s : Bytes) (h : '\\' ∉ s) :
    s.flatMap (fun c => if c = '\\' then ['\\', '\\'] else [c]) = s := by
  induction s with
  | nil => rfl
  | cons c t ih =>
    have hc : ¬ c = '\\' := fun hc => h (hc ▸ List.mem_cons_self c t)
    have ht : '\\' ∉ t := fun hm => h (List.mem_cons_of_mem c hm)
    simp [hc, ih ht]

/-- Scanner step: an escaped quote. -/
lemma parseQuoted_esc (l : Bytes) :
    parseQuoted ('\\' :: '"' :: l) =
      (parseQuoted l).map (fun p => ('"' :: p.1, p.2)) := by
  simp [parseQuoted]

/-- Scanner step: an unescaped quote terminates. -/
lemma parseQuoted_close (l : Bytes) : parseQuoted ('"' :: l) = some ([], l) := by
  cases l <;> simp [parseQuoted]

/-- Scanner step: an ordinary byte is copied. -/
lemma parseQuoted_other (c : Char) (l : Bytes) (hc : ¬ c = '\\')
    (hq : ¬ c = '"') :
    parseQuoted (c :: l) = (parseQuoted l).map (fun p => (c :: p.1, p.2)) := by
  cases l with
  | nil => simp [parseQuoted, hq]
  | cons d rest =>
    simp only [parseQuoted]
    rw [if_neg (fun hand => hc hand.1), if_neg hq]

/-- Scanner step: a backslash not followed by a quote is copied. -/
lemma parseQuoted_backslash (d : Char) (l : Bytes) (hd : ¬ d = '"') :
    parseQuoted ('\\' :: d :: l) =
      (parseQuoted (d :: l)).map (fun p => ('\\' :: p.1, p.2)) := by
  simp only [parseQuoted]
  rw [if_neg (fun hand => hd hand.2), if_neg (by decide)]

/-- `parseOneArg` on a leading quote runs the quoted-string scanner. -/
lemma parseOneArg_quote (rest : Bytes) :
    parseOneArg ('"' :: rest) =
      match parseQuoted rest with
      | none => .err
      | some (tok, r) => .ok (tok, r) := by
  simp [parseOneArg]

/-- Scanning the quote-escaped form of a backslash-free string, with
the closing quote appended, recovers the string with nothing left. -/
lemma parseQuoted_escaped (s : Bytes) (h : '\\' ∉ s) :
    parseQuoted ((s.flatMap (fun c => if c = '"' then ['\\', '"'] else [c]))
      ++ ['"']) = some (s, []) := by
  induction s with
  | nil => rfl
  | cons c t ih =>
    have ht : '\\' ∉ t := fun hm => h (List.mem_cons_of_mem c hm)
    have hc : ¬ c = '\\' := fun hc => h (hc ▸ List.mem_cons_self c t)
    by_cases hq : c = '"'
    · subst hq
      simp only [List.flatMap_cons, eq_self_iff_true, if_true,
        List.cons_append, List.append_assoc, List.nil_append]
      rw [parseQuoted_esc, ih ht]
      rfl
    · simp only [List.flatMap_cons, if_neg hq, List.singleton_append,
        List.cons_append, List.nil_append]
      rw [parseQuoted_other c _ hc hq, ih ht]
      rfl

/-- **C5 (amended).** For every string containing no backslash (over
printable ASCII plus `"`), IMAP-quoting it and parsing the result with
the one-argument rule succeeds and returns the original string; with a
backslash in the input the round trip can fail, because `parseOneArg`
does not decode `\\`. -/
theorem quote_roundtrip_without_backslash (s : Bytes) (h : '\\' ∉ s) :
    parseOneArg (quoteIMAPString s) = .ok (s, []) := by
  unfold quoteIMAPString
  rw [escape_backslash_id s h]
  rw [show ('"' :: s.flatMap (fun c => if c = '"' then ['\\', '"'] else [c])
      ++ ['"'] : Bytes) =
    '"' :: (s.flatMap (fun c => if c = '"' then ['\\', '"'] else [c])
      ++ ['"']) by simp]
  rw [parseOneArg_quote, parseQuoted_escaped s h]

/-- **C5 (witness).** The round trip at a concrete quote-containing,
backslash-free string. -/
theorem quote_roundtrip_without_backslash_witness :
    '\\' ∉ str "He said \"hi\"" ∧
    parseOneArg (quoteIMAPString (str "He said \"hi\"")) =
      .ok (str "He said \"hi\"", []) :=
  ⟨by decide, quote_roundtrip_without_backslash (str "He said \"hi\"")
    (by decide)⟩

/-- **C9 (counterexample).** In a quoted LIST mailbox the code does
not decode `\\`: the two backslashes of `"a\\b"` are returned
verbatim, where the claim demands the single backslash `a\b`. -/
theorem list_response_backslash_not_decoded :
    ParseListResponse (str "* LIST () \"/\" \"a\\\\b\"\r\n") =
      some (str "a\\\\b") ∧
    ¬ str "a\\\\b" = str "a\\b" :=
  ⟨rfl, by decide⟩

/-- CRLF-trimming a line that ends `"\r\n` strips exactly the CRLF. -/
lemma trimRightCRLF_concat_quote (l : Bytes) :
    trimRightCRLF (l ++ ['"', '\r', '\n']) = l ++ ['"'] := by
  unfold trimRightCRLF
  rw [show (l ++ ['"', '\r', '\n']).reverse = '\n' :: '\r' :: '"' :: l.reverse
      by simp,
    show List.dropWhile isCRLF ('\n' :: '\r' :: '"' :: l.reverse) =
      '"' :: l.reverse by simp [List.dropWhile, isCRLF]]
  simp

/-- Scanning a quoted span whose content has no `"` and no trailing
`\` returns the content verbatim (backslashes preserved). -/
lemma parseQuoted_append_close (m : Bytes) (hq : '"' ∉ m)
    (hb : ¬ m.getLast? = some '\\') :
    parseQuoted (m ++ ['"']) = some (m, []) := by
  induction m with
  | nil => rfl
  | cons c t ih =>
    have hqc : ¬ c = '"' := fun h => hq (h ▸ List.mem_cons_self c t)
    have hqt : '"' ∉ t := fun h => hq (List.mem_cons_of_mem c h)
    by_cases hcb : c = '\\'
    · subst hcb
      cases t with
      | nil => exact absurd rfl hb
      | cons d t' =>
        have hd : ¬ d = '"' := fun h => hqt (h ▸ List.mem_cons_self d t')
        have hb' : ¬ (d :: t').getLast? = some '\\' := by
          simpa [List.getLast?_cons_cons] using hb
        rw [show ('\\' :: d :: t') ++ ['"'] = '\\' :: d :: (t' ++ ['"'])
            from rfl,
          parseQuoted_backslash d (t' ++ ['"']) hd,
          show (d :: (t' ++ ['"'])) = (d :: t') ++ ['"'] from rfl,
          ih hqt hb']
        rfl
    · have hb' : ¬ t.getLast? = some '\\' := by
        cases t with
        | nil => simp
        | cons d t' => simpa [List.getLast?_cons_cons] using hb
      rw [show (c :: t) ++ ['"'] = c :: (t ++ ['"']) from rfl,
        parseQuoted_other c _ hcb hqc, ih hqt hb']
      rfl

/-- **C9 (amended).** In a `* LIST` response with a quoted mailbox,
`\"` decodes to `"`, but `\\` is NOT decoded: any backslash not
directly before a `"` is returned verbatim.  First conjunct: for every
mailbox content without `"` and without a trailing `\`, the parser
returns the content byte-for-byte (backslashes included).  Second
conjunct: the `\"` escape decodes (the repository's own test vector). -/
theorem list_response_quoted_mailbox_decoding :
    (∀ m : Bytes, '"' ∉ m → ¬ m.getLast? = some '\\' →
      ParseListResponse (str "* LIST () \"/\" \"" ++ m ++ str "\"\r\n") =
        some m) ∧
    ParseListResponse (str "* LIST () \"/\" \"folder\\\"name\"\r\n") =
      some (str "folder\"name") := by
  refine ⟨fun m hq hb => ?_, rfl⟩
  unfold ParseListResponse
  rw [show (str "* LIST () \"/\" \"" ++ m ++ str "\"\r\n") =
      (str "* LIST () \"/\" \"" ++ m) ++ ['"', '\r', '\n'] from rfl,
    trimRightCRLF_concat_quote]
  show (parseQuoted (m ++ ['"'])).map Prod.fst = some m
  rw [parseQuoted_append_close m hq hb]
  rfl

/-- **C9 (witness).** The decoding theorem applied at the content
`a\\b`: both backslashes survive untouched. -/
theorem list_response_quoted_mailbox_decoding_witness :
    '"' ∉ str "a\\\\b" ∧ ¬ (str "a\\\\b").getLast? = some '\\' ∧
    ParseListResponse (str "* LIST () \"/\" \"" ++ str "a\\\\b" ++ str "\"\r\n") =
      some (str "a\\\\b") :=
  ⟨by decide, by decide,
    list_response_quoted_mailbox_decoding.1 (str "a\\\\b") (by decide)
      (by decide)⟩

/-- **C6 (counterexample).** `strconv.ParseInt` accepts a leading sign
and enforces the int64 range, so the code disagrees with the claim's
"digits only, any non-negative value" reading in both directions:
`{+5}` has non-digit content yet the code reports a literal of 5, and
a 20-digit count is a plain non-negative decimal yet the code reports
no literal. -/
theorem literal_sign_and_range_counterexample :
    ParseLiteral (str "{+5}\r\n") = some (5, false) ∧
    claimedLiteral (str "{+5}\r\n") = none ∧
    ParseLiteral (str "{99999999999999999999}\r\n") = none ∧
    claimedLiteral (str "{99999999999999999999}\r\n") =
      some (99999999999999999999, false) :=
  ⟨rfl, rfl, rfl, rfl⟩

/-- The first byte a `dropWhile` keeps fails the predicate. -/
lemma dropWhile_head_not {α : Type} (p : α → Bool) (l : List α) (d : α)
    (rest : List α) (h : l.dropWhile p = d :: rest) : p d = false := by
  induction l with
  | nil => simp at h
  | cons c t ih =>
    by_cases hc : p c = true
    · rw [List.dropWhile_cons_of_pos hc] at h
      exact ih h
    · rw [List.dropWhile_cons_of_neg hc] at h
      rw [← (List.cons.inj h).1]
      exact eq_false_of_ne_true hc

/-- `afterLastBrace` finds exactly the content after the last `{`. -/
lemma afterLastBrace_eq_some_iff (l inner : Bytes) :
    afterLastBrace l = some inner ↔
      ∃ pre, l = pre ++ '{' :: inner ∧ '{' ∉ inner := by
  constructor
  · intro h
    unfold afterLastBrace at h
    by_cases hl : (l.reverse.takeWhile (fun c => ¬ c = '{')).length = l.length
    · rw [if_pos hl] at h
      exact absurd h (by simp)
    · rw [if_neg hl] at h
      have hinner : inner = (l.reverse.takeWhile (fun c => ¬ c = '{')).reverse :=
        (Option.some.inj h).symm
      have hsplit := List.takeWhile_append_dropWhile
        (p := fun c => ¬ c = '{') (l := l.reverse)
      cases hd : l.reverse.dropWhile (fun c => ¬ c = '{') with
      | nil =>
        rw [hd, List.append_nil] at hsplit
        exact absurd (by rw [hsplit, List.length_reverse]) hl
      | cons d rest =>
        have hdbrace : d = '{' := by
          have := dropWhile_head_not _ _ _ _ hd
          simpa using this
        refine ⟨rest.reverse, ?_, ?_⟩
        · conv_lhs => rw [← l.reverse_reverse, ← hsplit, hd, hdbrace]
          rw [hinner]
          simp
        · intro hmem
          rw [hinner, List.mem_reverse] at hmem
          have := List.mem_takeWhile_imp hmem
          simp at this
  · rintro ⟨pre, rfl, hnot⟩
    unfold afterLastBrace
    have hrev : (pre ++ '{' :: inner).reverse =
        inner.reverse ++ '{' :: pre.reverse := by simp
    have htake : (pre ++ '{' :: inner).reverse.takeWhile (fun c => ¬ c = '{') =
        inner.reverse := by
      rw [hrev, List.takeWhile_append]
      rw [List.takeWhile_eq_self_iff.mpr ?_]
      · simp [List.takeWhile_cons]
      · intro x hx
        rw [List.mem_reverse] at hx
        simp only [decide_eq_true_eq]
        exact fun hxeq => hnot (hxeq ▸ hx)
    rw [htake]
    rw [if_neg (by simp; omega)]
    simp

/-- **C6 (amended).** Full characterization of the literal detector:
a literal is reported iff, after stripping trailing CR/LF, the line
ends in `}` with an earlier `{`, and the non-empty inner text between
the last `{` and the `}` — after optionally removing a single trailing
`+`, which sets the non-sync flag — is non-empty and accepted by Go's
`strconv.ParseInt` (an optional leading `+`/`-` sign, digits only,
value within int64) with a non-negative value.  In particular `{+5}`
and `{-0}` are accepted and counts above 2^63-1 are rejected. -/
theorem literal_detector_characterization (line : Bytes) (n : Int)
    (ns : Bool) :
    ParseLiteral line = some (n, ns) ↔
    ∃ pre inner,
      trimRightCRLF line = pre ++ '{' :: inner ++ ['}'] ∧
      '{' ∉ inner ∧ ¬ inner = [] ∧
      ((inner.getLast? = some '+' ∧ ns = true ∧ ¬ inner.dropLast = [] ∧
          parseIntGo inner.dropLast = some n) ∨
        (¬ inner.getLast? = some '+' ∧ ns = false ∧
          parseIntGo inner = some n)) ∧
      0 ≤ n := by
  unfold ParseLiteral
  constructor
  · intro h
    by_cases h0 : trimRightCRLF line = []
    · rw [if_pos h0] at h
      exact absurd h (by simp)
    rw [if_neg h0] at h
    by_cases h1 : (trimRightCRLF line).getLast? = some '}'
    swap
    · rw [if_pos h1] at h
      exact absurd h (by simp)
    rw [if_neg (not_not_intro h1)] at h
    have hdecomp : trimRightCRLF line =
        (trimRightCRLF line).dropLast ++ ['}'] := by
      conv_lhs => rw [← List.dropLast_append_getLast h0]
      rw [show (trimRightCRLF line).getLast h0 = '}' by
        have hg := List.getLast?_eq_getLast (trimRightCRLF line) h0
        rw [hg] at h1
        exact Option.some.inj h1]
    dsimp only at h
    cases hbrace : afterLastBrace (trimRightCRLF line).dropLast with
    | none =>
      rw [hbrace] at h
      exact absurd h (by simp)
    | some inner =>
      rw [hbrace] at h
      dsimp only at h
      obtain ⟨pre, hpre, hnotin⟩ := (afterLastBrace_eq_some_iff _ _).mp hbrace
      by_cases h2 : inner = []
      · rw [if_pos h2] at h
        exact absurd h (by simp)
      rw [if_neg h2] at h
      refine ⟨pre, inner, ?_, hnotin, h2, ?_⟩
      · rw [hdecomp, hpre]
      by_cases h3 : inner.getLast? = some '+'
      · rw [if_pos h3] at h
        dsimp only at h
        by_cases h4 : inner.dropLast = []
        · rw [if_pos h4] at h
          exact absurd h (by simp)
        rw [if_neg h4] at h
        cases hI : parseIntGo inner.dropLast with
        | none =>
          rw [hI] at h
          exact absurd h (by simp)
        | some count =>
          rw [hI] at h
          dsimp only at h
          by_cases h5 : count < 0
          · rw [if_pos h5] at h
            exact absurd h (by simp)
          rw [if_neg h5] at h
          have hpair := Option.some.inj h
          have hn : count = n := congrArg Prod.fst hpair
          have hns2 : ns = true := (congrArg Prod.snd hpair).symm
          subst hn
          exact ⟨Or.inl ⟨h3, hns2, h4, rfl⟩, not_lt.mp h5⟩
      · rw [if_neg h3] at h
        dsimp only at h
        rw [if_neg h2] at h
        cases hI : parseIntGo inner with
        | none =>
          rw [hI] at h
          exact absurd h (by simp)
        | some count =>
          rw [hI] at h
          dsimp only at h
          by_cases h5 : count < 0
          · rw [if_pos h5] at h
            exact absurd h (by simp)
          rw [if_neg h5] at h
          have hpair := Option.some.inj h
          have hn : count = n := congrArg Prod.fst hpair
          have hns2 : ns = false := (congrArg Prod.snd hpair).symm
          subst hn
          exact ⟨Or.inr ⟨h3, hns2, rfl⟩, not_lt.mp h5⟩
  · rintro ⟨pre, inner, hdata, hnotin, hne, hbranch, hpos⟩
    have hdata' : trimRightCRLF line = (pre ++ '{' :: inner) ++ ['}'] := by
      rw [hdata]
    rw [hdata']
    rw [if_neg (by simp)]
    rw [if_neg (not_not_intro (by rw [List.getLast?_concat]))]
    rw [List.dropLast_concat]
    dsimp only
    rw [(afterLastBrace_eq_some_iff _ _).mpr ⟨pre, rfl, hnotin⟩]
    dsimp only
    rw [if_neg hne]
    rcases hbranch with ⟨hplus, hns, hne', hint⟩ | ⟨hplus, hns, hint⟩
    · rw [if_pos hplus]
      dsimp only
      rw [if_neg hne', hint]
      dsimp only
      rw [if_neg (not_lt.mpr hpos), hns]
    · rw [if_neg hplus]
      dsimp only
      rw [if_neg hne, hint]
      dsimp only
      rw [if_neg (not_lt.mpr hpos), hns]

end RoImapProxy
